import Mathlib

/-!
Verification development for the scam-sentry matching-and-scoring engine.

The TypeScript sources are shallowly embedded here:
* text is a list of UTF-16 code units (`List Nat`), matching JavaScript
  string indexing (`s[i]`, `s.length`);
* JavaScript numbers are idealised as exact rationals (`ℚ`) in the
  computable pipeline and as reals (`ℝ`) where `Math.exp` appears;
* `x.toFixed(2)` followed by `parseFloat` is modelled as rounding to the
  nearest multiple of 1/100 (ties up);
* the ASCII fragment of `toLowerCase`, `\s` and `trim` is modelled (all
  pattern data and all concrete inputs used below are ASCII).
-/

namespace ScamSentry

/-- Code units of a string literal (ASCII/BMP). -/
def strCodes (s : String) : List Nat := s.toList.map Char.toNat

/-- ASCII `toLowerCase` on one code unit, as JavaScript does for A-Z. -/
def toLowerCode (c : Nat) : Nat := if 65 ≤ c ∧ c ≤ 90 then c + 32 else c

/-- `String.prototype.toLowerCase` on a whole text (ASCII fragment). -/
def toLowerList (l : List Nat) : List Nat := l.map toLowerCode

/-- JavaScript `\s` (ASCII fragment): space, tab, LF, VT, FF, CR. -/
def isSpaceCode (c : Nat) : Bool := c = 32 ∨ c = 9 ∨ c = 10 ∨ c = 11 ∨ c = 12 ∨ c = 13

/-- ASCII letter a-z or A-Z. -/
def isLetterCode (c : Nat) : Bool := (97 ≤ c ∧ c ≤ 122) ∨ (65 ≤ c ∧ c ≤ 90)

/-- ASCII digit 0-9. -/
def isDigitCode (c : Nat) : Bool := 48 ≤ c ∧ c ≤ 57

/-- `/[a-z0-9]/i` — used by both DFAs for alphanumeric checks. -/
def isAlphaNumericCode (c : Nat) : Bool := isLetterCode c || isDigitCode c

/-- `String.prototype.trim` (ASCII whitespace fragment). -/
def trimList (l : List Nat) : List Nat :=
  ((l.dropWhile (fun c => isSpaceCode c)).reverse.dropWhile (fun c => isSpaceCode c)).reverse

/-- `needle` occurs as a contiguous run starting at position `i` of `hay`. -/
def occursAt (hay needle : List Nat) (i : Nat) : Bool :=
  decide (needle <+: hay.drop i)

/-- `String.prototype.includes`: `needle` occurs somewhere in `hay`. -/
def containsSub (hay needle : List Nat) : Bool :=
  (List.range (hay.length + 1)).any (fun i => occursAt hay needle i)

/-- `String.prototype.startsWith` / regex `^lit`. -/
def startsWithL (hay needle : List Nat) : Bool := decide (needle <+: hay)

/-- JavaScript `String.prototype.substring(s, e)`: clamps to the string and
swaps the arguments when `s > e`. -/
def substringJS (l : List Nat) (s e : Nat) : List Nat :=
  (l.take (max s e)).drop (min s e)

/-- Scam category reported by every DFA (src/types/types.ts). -/
inductive Category where
  | URGENCY | FINANCIAL | PHISHING | IMPERSONATION | URL | LEGIT
deriving DecidableEq, Repr

/-- A single pattern that fired (src/types/types.ts `Match`); `stop` renders
the source's `end` field, which is a reserved word in Lean. -/
structure Match where
  pattern : List Nat
  weight : ℚ
  category : Category
  start : Nat
  stop : Nat
deriving DecidableEq, Repr

/-- One configured keyword with its weight (patterns.json entry). -/
structure Pattern where
  keyword : List Nat
  weight : ℚ
deriving DecidableEq, Repr

/-- `parseFloat(x.toFixed(2))` on the exact-rational model: round to the
nearest multiple of 1/100. -/
def round2q (x : ℚ) : ℚ := (round (100 * x) : ℤ) / 100

/-- Same two-decimal rounding on the real-valued score path. -/
noncomputable def round2r (x : ℝ) : ℝ := (round (100 * x) : ℤ) / 100

/-- `calculateAsymptoticScore` (src/utils/utils.ts:98-106):
`MAX_SCORE × (1 − e^(−K_FACTOR × w))` with `MAX_SCORE = 95`, `K_FACTOR = 1.5`,
then rounded to two decimals. -/
noncomputable def calculateAsymptoticScore (w : ℝ) : ℝ :=
  round2r (95 * (1 - Real.exp (-(1.5 * w))))

/-- Step 5 of `scanMessage` (src/utils/utils.ts:192-198): scores below
`MIN_SCORE = 8` are forced to 0, and the result is trimmed to two decimals. -/
noncomputable def finalScoreOfWeight (w : ℝ) : ℝ :=
  round2r (if calculateAsymptoticScore w < 8 then 0 else calculateAsymptoticScore w)

/-!
## AhoCorasickDFA (src/classes/AhoCorasickDFA.ts)

`buildTrie` inserts, for each pattern, every prefix of the lower-cased
keyword as a trie node; a node is identified with its path from the root.
We keep paths in *reversed* order (most recent character first), so the
child of state `s` on character `c` is `c :: s`, and the root is `[]`.
-/

/-- A reversed trie path is a state of the automaton built by `buildTrie`
iff it is the root or (reversed) a prefix of some lower-cased keyword. -/
def isNode (ps : List Pattern) (s : List Nat) : Bool :=
  s.isEmpty || ps.any (fun p => decide (s.reverse <+: toLowerList p.keyword))

/-- `δ(s, c)` is defined iff the extended path is a trie node
(`state.transitions.has(char)` in the source). -/
def hasEdge (ps : List Pattern) (s : List Nat) (c : Nat) : Bool :=
  isNode ps (c :: s)

/-- The failure-chain walk shared by `buildFailureLinks` and `scan`:
follow `fail` from `u` until a state with a transition on `c` is found or
the root is reached, then take that transition (or stay at the root).
`fuel` bounds the loop; every use below supplies enough fuel because the
failure map strictly decreases state depth (proved in `failAux_spec`). -/
def chainWalk (ps : List Pattern) (fail : List Nat → List Nat) :
    Nat → List Nat → Nat → List Nat
  | 0, _, _ => []
  | fuel + 1, u, c =>
    if ¬ u.isEmpty ∧ ¬ hasEdge ps u c then chainWalk ps fail fuel (fail u) c
    else if hasEdge ps u c then c :: u else []

/-- `buildFailureLinks` (src/classes/AhoCorasickDFA.ts:108-145), rendered as a
recursion on state depth in place of the source's breadth-first queue:
depth-1 states fail to the root; a deeper state `c :: p` walks the failure
chain of its parent `p` looking for a transition on `c`. -/
def failAux (ps : List Pattern) : Nat → List Nat → List Nat
  | 0, _ => []
  | fuel + 1, s =>
    match s with
    | [] => []
    | [_] => []
    | c :: p => chainWalk ps (failAux ps fuel) (fuel + 1) (failAux ps fuel p) c

/-- The failure link of a state (fuel `s.length` suffices: chain states
strictly decrease in depth). -/
def failLink (ps : List Pattern) (s : List Nat) : List Nat :=
  failAux ps s.length s

/-- The direct output written by `buildTrie` (src lines 86-99): the first
pattern terminating at the state fixes the stored pattern string, later
ones only raise the weight to the maximum. -/
def directOutput (ps : List Pattern) (s : List Nat) : Option (List Nat × ℚ) :=
  ps.foldl
    (fun acc p =>
      if (toLowerList p.keyword).reverse = s then
        match acc with
        | none => some (p.keyword, p.weight)
        | some (k, w) => some (k, max w p.weight)
      else acc)
    none

/-- Output inheritance of `buildFailureLinks` (src lines 139-142): a state
with no direct output inherits the (final) output of its failure target;
depth-1 states are seeded into the BFS queue without an inheritance check,
so only states of depth ≥ 2 inherit. -/
def outputAux (ps : List Pattern) : Nat → List Nat → Option (List Nat × ℚ)
  | 0, s => directOutput ps s
  | fuel + 1, s =>
    match directOutput ps s with
    | some o => some o
    | none => if s.length ≤ 1 then none else outputAux ps fuel (failLink ps s)

/-- The output attached to a state after construction (`patternTable` holds
exactly the states where this is `some`). -/
def stateOutput (ps : List Pattern) (s : List Nat) : Option (List Nat × ℚ) :=
  outputAux ps s.length s

/-- A raw hit reported by `AhoCorasickDFA.scan` / `URLDFA.scan` before the
pipeline attaches a category. -/
structure RawMatch where
  pattern : List Nat
  weight : ℚ
  start : Nat
  stop : Nat
deriving DecidableEq, Repr

/-- Emit the output of state `s` at text position `i` (src lines 213-231):
`end = i + 1`, `start = end − pattern.length`, dropped if negative. -/
def emitAt (ps : List Pattern) (s : List Nat) (i : Nat) : List RawMatch :=
  match stateOutput ps s with
  | none => []
  | some (k, w) =>
    if k.length ≤ i + 1 then [⟨k, w, i + 1 - k.length, i + 1⟩] else []

/-- The failure-chain emission loop of `scan` (src lines 233-254): walk
failure links from `failLink s`, emitting every output until the root. -/
def failEmits (ps : List Pattern) : Nat → List Nat → Nat → List RawMatch
  | 0, _, _ => []
  | fuel + 1, f, i =>
    if f.isEmpty then []
    else emitAt ps f i ++ failEmits ps fuel (failLink ps f) i

/-- One character step of `scan` (src lines 195-209): follow failure links
until a transition on the (lower-cased) character exists, else the root. -/
def acStep (ps : List Pattern) (s : List Nat) (c : Nat) : List Nat :=
  chainWalk ps (failLink ps) (s.length + 1) s c

/-- The character loop of `AhoCorasickDFA.scan`. -/
def ahoGo (ps : List Pattern) : List Nat → Nat → List Nat → List RawMatch
  | [], _, _ => []
  | c :: rest, i, s =>
    let s2 := acStep ps s (toLowerCode c)
    (emitAt ps s2 i ++ failEmits ps s2.length (failLink ps s2) i)
      ++ ahoGo ps rest (i + 1) s2

/-- `AhoCorasickDFA.scan` (src/classes/AhoCorasickDFA.ts:185-258). -/
def ahoScan (ps : List Pattern) (text : List Nat) : List RawMatch :=
  ahoGo ps text 0 []

/-!
## URLDFA (src/classes/URLDFA.ts)

The state set built by `buildDFA`/`createState` is fixed; we enumerate it.
Each state also carries a mutable `buffer` field that `scan` writes into
(`currentState.buffer = buffer`, line 135); that mutable part of the
automaton is threaded through the scan as a map `UState → List Nat`.
-/

/-- States created by `buildDFA` plus the ones `delta` creates lazily. -/
inductive UState where
  | q0 | qHttp | qHttps | qDomain | qShortener | qSuspiciousTld | qPath
  | qSuspiciousPath | qParam | qIp | qUrlBody
  | qProtocolBuilding | qDomainBuilding | qIpBuilding
deriving DecidableEq, Repr

/-- `isAccepting` flags from `buildDFA` (src/classes/URLDFA.ts:60-77). -/
def isAcceptingU : UState → Bool
  | .qHttp | .qHttps | .qDomain | .qShortener | .qSuspiciousTld
  | .qPath | .qSuspiciousPath | .qParam | .qIp => true
  | _ => false

/-- `baseWeight` values from `buildDFA`. -/
def baseWeightU : UState → Option ℚ
  | .qHttp => some (3/5)
  | .qHttps => some (1/2)
  | .qDomain => some (1/2)
  | .qShortener => some (39/50)
  | .qSuspiciousTld => some (41/50)
  | .qPath => some (13/20)
  | .qSuspiciousPath => some (7/10)
  | .qParam => some (3/4)
  | .qIp => some (9/10)
  | _ => none

/-- The fixed lookup tables of the class (src/classes/URLDFA.ts:47-51). -/
def suspiciousTLDs : List (List Nat) :=
  [strCodes ("tk"), strCodes ("ml"), strCodes ("ga"), strCodes ("gq"),
   strCodes ("cf"), strCodes ("xyz"), strCodes ("top"), strCodes ("click"),
   strCodes ("online"), strCodes ("site")]

def shorteners : List (List Nat) :=
  [strCodes ("bit.ly"), strCodes ("tinyurl.com"), strCodes ("tinyurl"),
   strCodes ("t.co"), strCodes ("goo.gl"), strCodes ("cutt.ly"),
   strCodes ("rb.gy"), strCodes ("ow.ly"), strCodes ("is.gd")]

def financialKeywords : List (List Nat) :=
  [strCodes ("gcash"), strCodes ("bpi"), strCodes ("bdo"), strCodes ("bank"),
   strCodes ("paymaya"), strCodes ("metrobank"), strCodes ("unionbank"),
   strCodes ("security-bank")]

def suspiciousPaths : List (List Nat) :=
  [strCodes ("verify"), strCodes ("login"), strCodes ("secure"),
   strCodes ("account"), strCodes ("update"), strCodes ("confirm"),
   strCodes ("auth")]

def suspiciousParams : List (List Nat) :=
  [strCodes ("verify"), strCodes ("token"), strCodes ("otp"),
   strCodes ("confirm"), strCodes ("code"), strCodes ("auth"),
   strCodes ("validate")]

/-- Regex `/^https?:\/\//i` as a prefix test. -/
def protoPrefix (l : List Nat) : Bool :=
  startsWithL (toLowerList l) (strCodes ("http://")) ||
  startsWithL (toLowerList l) (strCodes ("https://"))

/-- Character class `[a-z0-9.-]` of the domain regexes (after lowering). -/
def domainClassCode (c : Nat) : Bool := isAlphaNumericCode c || c = 46 || c = 45

/-- At least two letters begin the list (the `[a-z]{2,}` TLD tail of the
*unanchored* lookahead regex). -/
def twoLettersAhead : List Nat → Bool
  | a :: b :: _ => isLetterCode a && isLetterCode b
  | _ => false

/-- Regex `/^[a-z0-9][a-z0-9.-]*\.[a-z]{2,}/i` (`transitionToDomain`'s
lookahead): existence of a decomposition. -/
def domainLookahead (l : List Nat) : Bool :=
  match toLowerList l with
  | [] => false
  | c :: rest =>
    isAlphaNumericCode c &&
      (List.range rest.length).any (fun j =>
        (rest.take j).all (fun d => domainClassCode d) &&
        rest.get? j = some 46 && twoLettersAhead (rest.drop (j + 1)))

/-- Regex `/^[a-z0-9][a-z0-9.-]*\.[a-z]{2,}$/i` (`isCompleteDomain`). -/
def isCompleteDomain (l : List Nat) : Bool :=
  match toLowerList l with
  | [] => false
  | c :: rest =>
    isAlphaNumericCode c &&
      (List.range rest.length).any (fun j =>
        (rest.take j).all (fun d => domainClassCode d) &&
        rest.get? j = some 46 &&
        2 ≤ (rest.drop (j + 1)).length &&
        (rest.drop (j + 1)).all (fun d => isLetterCode d))

/-- Split a text on `.` (code 46), keeping empty groups. -/
def splitDot (l : List Nat) : List (List Nat) :=
  l.foldr
    (fun c groups =>
      match groups with
      | [] => if c = 46 then [[], []] else [[c]]
      | g :: gs => if c = 46 then [] :: g :: gs else (c :: g) :: gs)
    [[]]

/-- Regex `/^\d{1,3}\.\d{1,3}\.\d{1,3}\.\d{1,3}$/` (`isCompleteIP`). -/
def isCompleteIP (l : List Nat) : Bool :=
  (splitDot l).length = 4 &&
  (splitDot l).all (fun g =>
    1 ≤ g.length && g.length ≤ 3 && g.all (fun d => isDigitCode d))

/-- A run of exactly `n` digits starts the list; returns the remainder. -/
def digitGroup (l : List Nat) (n : Nat) : Option (List Nat) :=
  if (l.take n).length = n ∧ (l.take n).all (fun d => isDigitCode d) then
    some (l.drop n)
  else none

/-- A literal dot starts the list; returns the remainder. -/
def dotThen : List Nat → Option (List Nat)
  | 46 :: r => some r
  | _ => none

/-- Regex `/^\d{1,3}\.\d{1,3}\.\d{1,3}\.\d{1,3}/i` (`transitionToIP`'s
unanchored lookahead). -/
def ipLookahead (l : List Nat) : Bool :=
  [1, 2, 3].any (fun a =>
    match (digitGroup l a).bind dotThen with
    | none => false
    | some l1 =>
      [1, 2, 3].any (fun b =>
        match (digitGroup l1 b).bind dotThen with
        | none => false
        | some l2 =>
          [1, 2, 3].any (fun c =>
            match (digitGroup l2 c).bind dotThen with
            | none => false
            | some l3 =>
              [1, 2, 3].any (fun d => (digitGroup l3 d).isSome))))

/-- Regex `/[a-z0-9.\-_~:/?#[\]@!$&'()*+,;=%]/i` (`isValidURLChar`). -/
def isValidURLChar (c : Nat) : Bool :=
  isLetterCode c || isDigitCode c ||
  [46, 45, 95, 126, 58, 47, 63, 35, 91, 93, 64, 33, 36, 38, 39,
   40, 41, 42, 43, 44, 59, 61, 37].contains c

/-- `isURLBoundary(currentChar, nextChar)`: an absent next character, any
whitespace, or one of `< > " ' ]` ends the match. -/
def isURLBoundary (_cur : Nat) (next : Option Nat) : Bool :=
  match next with
  | none => true
  | some n => isSpaceCode n || [60, 62, 34, 39, 93].contains n

/-- `tld(?:[/?#]|$)` tail check shared by the suspicious-TLD/path regexes. -/
def tailDelimOk : List Nat → Bool
  | [] => true
  | r :: _ => [47, 63, 35].contains r

/-- `isShortenerDomain`: some shortener occurs as a substring. -/
def isShortenerDomain (buf : List Nat) : Bool :=
  shorteners.any (fun s => containsSub (toLowerList buf) (toLowerList s))

/-- `hasSuspiciousTLD`: regex `\.tld(?:[/?#]|$)` for some listed TLD. -/
def hasSuspiciousTLD (buf : List Nat) : Bool :=
  suspiciousTLDs.any (fun t =>
    (List.range (toLowerList buf).length).any (fun i =>
      occursAt (toLowerList buf) (46 :: t) i &&
      tailDelimOk ((toLowerList buf).drop (i + 1 + t.length))))

/-- `hasFinancialKeyword`: substring containment. -/
def hasFinancialKeyword (buf : List Nat) : Bool :=
  financialKeywords.any (fun k => containsSub (toLowerList buf) k)

/-- `hasSuspiciousPath`: regex `/seg(?:[/?#]|$)` for some listed segment. -/
def hasSuspiciousPath (buf : List Nat) : Bool :=
  suspiciousPaths.any (fun p =>
    (List.range (toLowerList buf).length).any (fun i =>
      occursAt (toLowerList buf) (47 :: p) i &&
      tailDelimOk ((toLowerList buf).drop (i + 1 + p.length))))

/-- `hasSuspiciousParam`: regex `[?&]name=` for some listed name. -/
def hasSuspiciousParam (buf : List Nat) : Bool :=
  suspiciousParams.any (fun p =>
    (List.range (toLowerList buf).length).any (fun i =>
      ((toLowerList buf).get? i = some 63 || (toLowerList buf).get? i = some 38) &&
      occursAt (toLowerList buf) (p ++ [61]) (i + 1)))

/-- `determineAcceptingState` (src/classes/URLDFA.ts:395-437). -/
def determineAcceptingState (buf : List Nat) : Option UState :=
  if startsWithL (toLowerList buf) (strCodes ("http://")) then some .qHttp
  else if startsWithL (toLowerList buf) (strCodes ("https://")) then some .qHttps
  else if isCompleteIP buf then some .qIp
  else if isShortenerDomain buf then some .qShortener
  else if hasSuspiciousTLD buf then some .qSuspiciousTld
  else if hasSuspiciousPath buf then some .qSuspiciousPath
  else if hasSuspiciousParam buf then some .qParam
  else if isCompleteDomain buf then some .qDomain
  else none

/-- `transitionToProtocol`: look ahead for `http(s)://` in the full text. -/
def transitionToProtocol (text : List Nat) (pos : Nat) : Option UState :=
  if protoPrefix (text.drop pos) then some .qProtocolBuilding else none

/-- `continueProtocol`; note that `delta` already passes `buffer + char`,
so the source's `bufferLower + char` test doubles the character. -/
def continueProtocol (buf : List Nat) (c : Nat) : Option UState :=
  if toLowerList buf = strCodes ("http://") ∨ toLowerList buf = strCodes ("https://") then
    some .qUrlBody
  else if protoPrefix (buf ++ [c]) then some .qProtocolBuilding
  else none

/-- `continueURLBody`: every valid-character branch returns `q_url_body`. -/
def continueURLBody (buf : List Nat) (c : Nat) : Option UState :=
  if isValidURLChar (toLowerCode c) then some .qUrlBody
  else determineAcceptingState buf

/-- `transitionToDomain`: look ahead for a domain shape. -/
def transitionToDomain (text : List Nat) (pos : Nat) : Option UState :=
  if domainLookahead (text.drop pos) then some .qDomainBuilding else none

/-- `continueDomain`; again `buf` already ends in `c`, so the completeness
test on `buffer + char` doubles the character. -/
def continueDomain (buf : List Nat) (c : Nat) : Option UState :=
  if isAlphaNumericCode (toLowerCode c) ∨ toLowerCode c = 46 ∨ toLowerCode c = 45 then
    if isCompleteDomain (buf ++ [c]) then determineAcceptingState (buf ++ [c])
    else some .qDomainBuilding
  else if isCompleteDomain buf then determineAcceptingState buf
  else none

/-- `transitionToIP`: look ahead for an IPv4 shape. -/
def transitionToIP (text : List Nat) (pos : Nat) : Option UState :=
  if ipLookahead (text.drop pos) then some .qIpBuilding else none

/-- `continueIP`. -/
def continueIP (buf : List Nat) (c : Nat) : Option UState :=
  if isDigitCode (toLowerCode c) ∨ toLowerCode c = 46 then
    if isCompleteIP (buf ++ [c]) then some .qIp else some .qIpBuilding
  else none

/-- `delta` (src/classes/URLDFA.ts:180-236); `buf` is `buffer + char` as at
the call site in `scan`. -/
def urlDelta (st : UState) (c : Nat) (buf : List Nat) (text : List Nat) (pos : Nat) :
    Option UState :=
  match st with
  | .q0 =>
    if toLowerCode c = 104 then transitionToProtocol text pos
    else if isAlphaNumericCode (toLowerCode c) then transitionToDomain text pos
    else if isDigitCode (toLowerCode c) then transitionToIP text pos
    else none
  | .qProtocolBuilding => continueProtocol buf c
  | .qUrlBody => continueURLBody buf c
  | .qDomainBuilding => continueDomain buf c
  | .qIpBuilding => continueIP buf c
  | st => if isValidURLChar (toLowerCode c) then some st else none

/-- `analyzeCharacteristics` result entries, in the source's emit order. -/
inductive UrlCharacteristic where
  | suspiciousTld | urlShortener | ipAddress | httpFinancial
  | suspiciousPathSeg | suspiciousParamName
deriving DecidableEq, Repr

/-- `analyzeCharacteristics` (src/classes/URLDFA.ts:442-471). -/
def analyzeCharacteristics (buf : List Nat) : List UrlCharacteristic :=
  (if hasSuspiciousTLD buf then [UrlCharacteristic.suspiciousTld] else []) ++
  (if isShortenerDomain buf then [UrlCharacteristic.urlShortener] else []) ++
  (if isCompleteIP (toLowerList buf) then [UrlCharacteristic.ipAddress] else []) ++
  (if hasFinancialKeyword buf &&
      startsWithL (toLowerList buf) (strCodes ("http://")) then
    [UrlCharacteristic.httpFinancial] else []) ++
  (if hasSuspiciousPath buf then [UrlCharacteristic.suspiciousPathSeg] else []) ++
  (if hasSuspiciousParam buf then [UrlCharacteristic.suspiciousParamName] else [])

/-- The `charWeights` table of `calculateWeight`. -/
def charWeightOf : UrlCharacteristic → ℚ
  | .suspiciousTld => 41/50
  | .urlShortener => 39/50
  | .ipAddress => 9/10
  | .httpFinancial => 23/25
  | .suspiciousPathSeg => 7/10
  | .suspiciousParamName => 3/4

/-- `calculateWeight` (src/classes/URLDFA.ts:476-496): start from
`state.baseWeight || 0.50` (JavaScript falsy check) and raise to each
matched characteristic's weight (`if (charWeights[char])` is always truthy
for the six keys). -/
def calculateWeight (st : UState) (cs : List UrlCharacteristic) : ℚ :=
  cs.foldl
    (fun w c => if charWeightOf c ≠ 0 then max w (charWeightOf c) else w)
    (match baseWeightU st with
     | some w => if w = 0 then 1/2 else w
     | none => 1/2)

/-- The inner character loop of `URLDFA.scan` (src lines 122-148), with the
node-buffer assignment `currentState.buffer = buffer` modelled by updating
the threaded buffer map. Returns (last accepting state and end, buffer,
buffer map). -/
def urlInner (text : List Nat) :
    Nat → Nat → UState → List Nat → Option (UState × Nat) → (UState → List Nat) →
    Option (UState × Nat) × List Nat × (UState → List Nat)
  | 0, _, _, buffer, lastAcc, bufs => (lastAcc, buffer, bufs)
  | fuel + 1, i, st, buffer, lastAcc, bufs =>
    match text.get? i with
    | none => (lastAcc, buffer, bufs)
    | some c =>
      match urlDelta st c (buffer ++ [c]) text i with
      | none => (lastAcc, buffer, bufs)
      | some st2 =>
        let buffer2 := buffer ++ [c]
        let bufs2 := Function.update bufs st2 buffer2
        let lastAcc2 := if isAcceptingU st2 then some (st2, i + 1) else lastAcc
        if isURLBoundary c (text.get? (i + 1)) then (lastAcc2, buffer2, bufs2)
        else urlInner text fuel (i + 1) st2 buffer2 lastAcc2 bufs2

/-- The outer restart loop of `URLDFA.scan` (src lines 113-171). -/
def urlOuter (text : List Nat) :
    Nat → Nat → (UState → List Nat) → List Match →
    List Match × (UState → List Nat)
  | 0, _, bufs, acc => (acc, bufs)
  | fuel + 1, i, bufs, acc =>
    if i < text.length then
      match urlInner text (text.length - i + 1) i .q0 [] none bufs with
      | (some (st, endPos), buffer, bufs2) =>
        if 0 < buffer.length then
          urlOuter text fuel endPos bufs2
            (acc ++ [⟨buffer.take 50 ++ (if 50 < buffer.length then strCodes ("...") else []),
                      calculateWeight st (analyzeCharacteristics buffer),
                      Category.URL, i, endPos⟩])
        else urlOuter text fuel (i + 1) bufs2 acc
      | (none, _, bufs2) => urlOuter text fuel (i + 1) bufs2 acc
    else (acc, bufs)

/-- Stable insertion of a match into a start-sorted list. -/
def insByStart (m : Match) : List Match → List Match
  | [] => [m]
  | x :: xs => if m.start ≤ x.start then m :: x :: xs else x :: insByStart m xs

/-- `matches.sort((a, b) => a.start - b.start)`: a stable sort whose only
key is `start` (ECMAScript sort is stable; there is no length tie-break). -/
def sortByStart (l : List Match) : List Match := l.foldr insByStart []

/-- The overlap test of `deduplicateMatches` (src lines 611-615), with
`m` the candidate and `e` an already kept match. -/
def overlapsPair (m e : Match) : Bool :=
  (e.start ≤ m.start ∧ m.start < e.stop) ∨
  (e.start < m.stop ∧ m.stop ≤ e.stop) ∨
  (m.start ≤ e.start ∧ e.stop ≤ m.stop)

/-- The keep/skip loop of `deduplicateMatches`: skip a span already kept
(`processedRanges`), skip anything overlapping a kept match, else keep. -/
def dedupGo : List Match → List Match → List (Nat × Nat) → List Match
  | [], res, _ => res
  | m :: rest, res, keys =>
    if (m.start, m.stop) ∈ keys then dedupGo rest res keys
    else if res.any (fun e => overlapsPair m e) then dedupGo rest res keys
    else dedupGo rest (res ++ [m]) ((m.start, m.stop) :: keys)

/-- `URLDFA.deduplicateMatches` (src/classes/URLDFA.ts:596-624). -/
def deduplicateMatches (ms : List Match) : List Match :=
  dedupGo (sortByStart ms) [] []

/-- `URLDFA.scan`, also exposing the node-buffer map it wrote during the
scan (all buffers start out empty, as set by `createState`). -/
def urlScanFull (text : List Nat) : List Match × (UState → List Nat) :=
  match urlOuter text (text.length + 1) 0 (fun _ => []) [] with
  | (ms, bufs) => (deduplicateMatches ms, bufs)

/-- The match list returned by `URLDFA.scan`. -/
def urlScan (text : List Nat) : List Match := (urlScanFull text).1

/-!
## Context validation (src/utils/contextValidator.ts)
-/

/-- The word-boundary class `[\s.,!?;:()\[\]{}"'`]` (ASCII fragment of
`\s`); the bracket characters are `. , ! ? ; : ( ) [ ] { } " ' `` ` ``. -/
def isBoundaryCode (c : Nat) : Bool :=
  isSpaceCode c ||
  (c = 46 ∨ c = 44 ∨ c = 33 ∨ c = 63 ∨ c = 59 ∨ c = 58 ∨ c = 40 ∨ c = 41 ∨
   c = 91 ∨ c = 93 ∨ c = 123 ∨ c = 125 ∨ c = 34 ∨ c = 39 ∨ c = 96)

/-- `validatePatternLength` (src lines 38-48): the trimmed matched span
must have at least `MIN_PATTERN_LENGTH = 3` characters. -/
def validatePatternLength (m : Match) (text : List Nat) : Bool :=
  3 ≤ (trimList (substringJS text m.start m.stop)).length

/-- `validateWordBoundary` (src lines 56-77): the characters on both sides
of the span must be word boundaries; text start/end count as boundaries
(`' '` is substituted), and an out-of-range index yields JavaScript
`undefined`, which the boundary regex rejects. -/
def validateWordBoundary (m : Match) (text : List Nat) : Bool :=
  (if 0 < m.start then
    match (toLowerList text).get? (m.start - 1) with
    | some c => isBoundaryCode c
    | none => false
  else true) &&
  (if m.stop < (toLowerList text).length then
    match (toLowerList text).get? m.stop with
    | some c => isBoundaryCode c
    | none => false
  else true)

/-- `isSingleWordPattern`: no space in the trimmed pattern. -/
def isSingleWordPattern (p : List Nat) : Bool := ¬ (trimList p).contains 32

/-- The generic-term list of `isGenericPattern`. -/
def genericPatterns : List (List Nat) :=
  [strCodes ("win"), strCodes ("earn"), strCodes ("money"), strCodes ("cash"),
   strCodes ("free"), strCodes ("offer"), strCodes ("loan"), strCodes ("prize"),
   strCodes ("reward"), strCodes ("pera"), strCodes ("income"),
   strCodes ("profit"), strCodes ("transfer"), strCodes ("php"),
   strCodes ("pesos"), strCodes ("click"), strCodes ("register"),
   strCodes ("apply"), strCodes ("call"), strCodes ("text"),
   strCodes ("claim"), strCodes ("avail"), strCodes ("update"),
   strCodes ("verify"), strCodes ("urgent"), strCodes ("asap"),
   strCodes ("now"), strCodes ("today"), strCodes ("expire"),
   strCodes ("bank"), strCodes ("gcash"), strCodes ("bpi"),
   strCodes ("bdo"), strCodes ("smart"), strCodes ("globe")]

/-- URL indicators that exempt a pattern from the generic list (checked on
the raw, un-lowered pattern). -/
def genericUrlIndicators : List (List Nat) :=
  [strCodes ("://"), strCodes ("http"), strCodes ("https"),
   strCodes ("bit.ly"), strCodes (".com"), strCodes (".ph"),
   strCodes (".tk"), strCodes (".ml")]

/-- `isGenericPattern` (src lines 152-178). -/
def isGenericPattern (p : List Nat) : Bool :=
  if genericUrlIndicators.any (fun ind => containsSub p ind) then false
  else genericPatterns.contains (trimList (toLowerList p))

/-- The high-confidence phrase list of `isHighConfidencePattern`. -/
def highConfidencePatterns : List (List Nat) :=
  [strCodes ("act now"), strCodes ("limited time offer"),
   strCodes ("expires within"), strCodes ("urgent security alert"),
   strCodes ("final warning"), strCodes ("immediate action required"),
   strCodes ("instant pera"), strCodes ("kumita ng malaki"),
   strCodes ("you won"), strCodes ("claim your prize"),
   strCodes ("free money"), strCodes ("guaranteed profit"),
   strCodes ("mabilis na yaman"), strCodes ("enter your otp"),
   strCodes ("verify your identity"),
   strCodes ("suspicious activity detected"),
   strCodes ("account suspended"), strCodes ("confirm identity"),
   strCodes ("security alert"), strCodes ("gcash official"),
   strCodes ("from your bank"), strCodes ("bsp notification")]

/-- URL indicators that make any pattern high confidence (checked on the
lowered pattern). -/
def hcUrlIndicators : List (List Nat) :=
  [strCodes ("://"), strCodes ("http://"), strCodes ("https://"),
   strCodes ("bit.ly"), strCodes ("tinyurl"), strCodes ("t.co"),
   strCodes ("goo.gl"), strCodes (".tk"), strCodes (".ml"),
   strCodes (".ga"), strCodes (".xyz"), strCodes ("?verify="),
   strCodes ("?token="), strCodes ("?confirm="), strCodes ("click here"),
   strCodes ("click link"), strCodes ("tap here")]

/-- `isHighConfidencePattern` (src lines 185-220). -/
def isHighConfidencePattern (p : List Nat) : Bool :=
  if hcUrlIndicators.any (fun ind => containsSub (toLowerList p) ind) then true
  else highConfidencePatterns.any (fun hcp => containsSub (toLowerList p) hcp)

/-- A code the regex `.` matches (anything but line terminators). -/
def isRegexDotCode (c : Nat) : Bool :=
  ¬ (c = 10 ∨ c = 13 ∨ c = 8232 ∨ c = 8233)

/-- `/A.*<tail>/`-style search: an occurrence of `A`, a line-break-free
gap, then a tail accepted by `P`. -/
def seqDotStarPred (hay A : List Nat) (P : List Nat → Bool) : Bool :=
  (List.range (hay.length + 1)).any (fun i =>
    occursAt hay A i &&
      (List.range (hay.length + 1)).any (fun k =>
        ((hay.drop (i + A.length)).take k).all (fun c => isRegexDotCode c) &&
        P ((hay.drop (i + A.length)).drop k)))

/-- `/A.*B/`: two literals separated by a line-break-free gap. -/
def seqDotStar (hay A B : List Nat) : Bool :=
  seqDotStarPred hay A (fun l => startsWithL l B)

/-- Three digits begin the list. -/
def threeDigits (l : List Nat) : Bool :=
  (l.take 3).length = 3 && (l.take 3).all (fun d => isDigitCode d)

/-- Tail of regex `\d{3}-?\d{3,4}` (a 3-digit prefix of `\d{3,4}` suffices
for existence of a regex match). -/
def phoneTail (l : List Nat) : Bool :=
  threeDigits l &&
  (threeDigits (l.drop 3) ||
   ((l.drop 3).head? = some 45 && threeDigits (l.drop 4)))

/-- Literal `A` followed immediately by a digit (`/A\d/`). -/
def litThenDigit (hay A : List Nat) : Bool :=
  (List.range (hay.length + 1)).any (fun i =>
    occursAt hay A i &&
      match (hay.drop (i + A.length)).head? with
      | some d => isDigitCode d
      | none => false)

/-- `isLegitimateContext` (src lines 97-142): the seventeen "legitimate
business communication" regexes, tested against the lowered message. -/
def isLegitimateContext (text : List Nat) : Bool :=
  let tl := toLowerList text
  containsSub tl (strCodes ("transaction reference:")) ||
  containsSub tl (strCodes ("transaction id:")) ||
  containsSub tl (strCodes ("transaction number:")) ||
  containsSub tl (strCodes ("receipt number:")) ||
  containsSub tl (strCodes ("confirmation code:")) ||
  containsSub tl (strCodes ("order number:")) ||
  seqDotStar tl (strCodes ("for assistance")) (strCodes ("contact us at")) ||
  seqDotStarPred tl (strCodes ("customer service")) (fun l => phoneTail l) ||
  seqDotStarPred tl (strCodes ("customer support")) (fun l => phoneTail l) ||
  litThenDigit tl (strCodes ("call us at ")) ||
  seqDotStar tl (strCodes ("your order")) (strCodes ("has been shipped")) ||
  seqDotStar tl (strCodes ("your order")) (strCodes ("has been delivered")) ||
  seqDotStar tl (strCodes ("your order")) (strCodes ("has been processed")) ||
  containsSub tl (strCodes ("booking confirmed")) ||
  containsSub tl (strCodes ("appointment scheduled")) ||
  seqDotStar tl (strCodes ("balance")) (strCodes ("as of")) ||
  containsSub tl (strCodes ("statement period")) ||
  containsSub tl (strCodes ("due date:")) ||
  containsSub tl (strCodes ("transaction date:")) ||
  seqDotStar tl (strCodes ("to unsubscribe")) (strCodes ("reply")) ||
  seqDotStar tl (strCodes ("to opt-out")) (strCodes ("reply")) ||
  seqDotStar tl (strCodes ("to stop")) (strCodes ("reply")) ||
  containsSub tl (strCodes ("text stop to")) ||
  containsSub tl (strCodes ("reply no to unsubscribe"))

/-- `calculateMatchDensity`: matches per 100 characters. -/
def calculateMatchDensity (n : Nat) (textLength : Nat) : ℚ :=
  (n : ℚ) / (max textLength 1 : Nat) * 100

/-- The five critical category combinations (src lines 254-260). -/
def criticalCombinations : List (List Category) :=
  [[.URGENCY, .FINANCIAL, .PHISHING],
   [.URGENCY, .IMPERSONATION, .PHISHING],
   [.FINANCIAL, .PHISHING, .URL],
   [.URGENCY, .FINANCIAL, .URL],
   [.IMPERSONATION, .PHISHING, .URL]]

/-- The distinct categories present among a match list (the `Set` built by
`analyzeCategoryCombinations`). -/
def categoriesOf (ms : List Match) : List Category :=
  (ms.map Match.category).dedup

/-- `hasCriticalCombination` of `analyzeCategoryCombinations`. -/
def hasCriticalCombination (ms : List Match) : Bool :=
  criticalCombinations.any (fun combo =>
    combo.all (fun c => (categoriesOf ms).contains c))

/-- The combination boost of `analyzeCategoryCombinations` (src lines
271-283), with `MULTI_CATEGORY_BOOST = 0.10`. -/
def combinationBoost (ms : List Match) : ℚ :=
  if 4 ≤ (categoriesOf ms).length then 3/20
  else if (categoriesOf ms).length = 3 ∧ hasCriticalCombination ms then 1/10
  else if (categoriesOf ms).length = 2 then 1/25
  else 0

/-- `adjustMatchWeight` (src lines 293-345), with the category count and
critical flag of the validated set. -/
def adjustMatchWeight (m : Match) (text : List Nat) (catCount : Nat)
    (critical : Bool) : ℚ :=
  let w1 :=
    if isSingleWordPattern m.pattern ∧ ¬ isHighConfidencePattern m.pattern then
      if catCount ≤ 1 then m.weight * (1 - 1/2)
      else if catCount = 2 then m.weight * (13/20)
      else m.weight * (4/5)
    else m.weight
  let w2 :=
    if isGenericPattern m.pattern then
      if catCount ≤ 1 then w1 * (2/5)
      else if catCount = 2 then w1 * (3/5)
      else w1 * (3/4)
    else w1
  let w3 := if isLegitimateContext text then w2 * (1/2) else w2
  let w4 := if critical then w3 * (23/20) else w3
  if isHighConfidencePattern m.pattern ∧ ¬ isSingleWordPattern m.pattern then
    w4 * (11/10)
  else w4

/-- The validation filter of `applyContextBoost` step 1: length check, then
(only when the text is non-empty, `if (text && ...)`) the boundary check. -/
def validMatch (m : Match) (text : List Nat) : Bool :=
  validatePatternLength m text && (text.isEmpty || validateWordBoundary m text)

/-- `applyContextBoost` (src lines 353-426): returns the adjusted validated
matches and the context boost (the rejected list is omitted; no claim
concerns it). -/
def applyContextBoost (ms : List Match) (text : List Nat) :
    List Match × ℚ :=
  let validated := ms.filter (fun m => validMatch m text)
  let catCount := (categoriesOf validated).length
  let critical := hasCriticalCombination validated
  let adjusted := validated.map (fun m =>
    { m with weight := adjustMatchWeight m text catCount critical })
  let dense := 3 ≤ calculateMatchDensity validated.length text.length
  let isolated := validated.length = 1 ∧ critical = false
  (adjusted,
   max 0 ((combinationBoost validated + (if dense then 1/20 else 0)) -
     (if isolated then 3/10 else 0)))

/-!
## The scan pipeline (src/utils/utils.ts)

`scanMessage` uses module-level singleton automata built from
`patterns.json`; the pattern lists are parameters here (the JSON data file
is configuration, not part of the engine) and the four category slots are
fixed exactly as in `dfaConfigs`.
-/

/-- The per-category pattern lists handed to the singleton DFAs. -/
structure ScanConfig where
  urgency : List Pattern
  financial : List Pattern
  phishing : List Pattern
  impersonation : List Pattern
deriving Repr

/-- Steps 1-2 of `scanMessage` (src lines 133-159): run the four
Aho-Corasick DFAs and the URL DFA, trim every weight to two decimals and
attach the category. -/
def rawMatchesOf (cfg : ScanConfig) (msg : List Nat) : List Match :=
  (ahoScan cfg.urgency msg).map
    (fun r => ⟨r.pattern, round2q r.weight, .URGENCY, r.start, r.stop⟩) ++
  (ahoScan cfg.financial msg).map
    (fun r => ⟨r.pattern, round2q r.weight, .FINANCIAL, r.start, r.stop⟩) ++
  (ahoScan cfg.phishing msg).map
    (fun r => ⟨r.pattern, round2q r.weight, .PHISHING, r.start, r.stop⟩) ++
  (ahoScan cfg.impersonation msg).map
    (fun r => ⟨r.pattern, round2q r.weight, .IMPERSONATION, r.start, r.stop⟩) ++
  (urlScan msg).map (fun u => { u with weight := round2q u.weight })

/-- The deduplication key of `scanMessage` step 4:
`` `${category}:${start}:${end}` ``. -/
def dedupKey (m : Match) : Category × Nat × Nat := (m.category, m.start, m.stop)

/-- One `uniqueMatches.set` step: a JavaScript `Map` keeps the insertion
position of an existing key, and the entry is replaced only when the new
weight is strictly greater. -/
def upsertMatch (acc : List Match) (m : Match) : List Match :=
  match acc with
  | [] => [m]
  | a :: as =>
    if dedupKey a = dedupKey m then
      if a.weight < m.weight then m :: as else a :: as
    else a :: upsertMatch as m

/-- Step 4 of `scanMessage`: collapse matches sharing a
`(category, start, end)` key, keeping the highest weight. -/
def uniqueMatchesOf (ms : List Match) : List Match := ms.foldl upsertMatch []

/-- Steps 1-3 of `scanMessage`: raw matches through context validation. -/
def scanValidated (cfg : ScanConfig) (msg : List Nat) : List Match × ℚ :=
  applyContextBoost (rawMatchesOf cfg msg) msg

/-- The deduplicated match list `scanMessage` returns. -/
def scanMatches (cfg : ScanConfig) (msg : List Nat) : List Match :=
  uniqueMatchesOf (scanValidated cfg msg).1

/-- Step 5 of `scanMessage` (src lines 183-189): `totalWeight` starts from
the trimmed context boost, accumulates every deduplicated weight, and is
trimmed to two decimals again. -/
def scanTotalWeight (cfg : ScanConfig) (msg : List Nat) : ℚ :=
  round2q (round2q (scanValidated cfg msg).2 +
    ((scanMatches cfg msg).map Match.weight).sum)

/-- What `scanMessage` returns (src/types/types.ts `ScanResult`);
`matchList` renders the source's `matches` field, a reserved word in
Lean. -/
structure ScanResult where
  score : ℝ
  matchList : List Match

/-- `scanMessage` (src/utils/utils.ts:130-201). -/
noncomputable def scanMessage (cfg : ScanConfig) (msg : List Nat) : ScanResult :=
  ⟨finalScoreOfWeight ((scanTotalWeight cfg msg : ℚ) : ℝ), scanMatches cfg msg⟩

/-!
## Numeric facts about the score function
-/

lemma round_eq_ofRange (n : ℤ) (x : ℝ) (h1 : (n : ℝ) - 1/2 ≤ x)
    (h2 : x < n + 1/2) : round x = n := by
  rw [round_eq]
  exact Int.floor_eq_iff.mpr ⟨by linarith, by linarith⟩

lemma round2r_zero : round2r 0 = 0 := by
  unfold round2r
  norm_num

lemma exp_neg34_bounds :
    (4723665/10000000 : ℝ) < Real.exp (-(3/4)) ∧
      Real.exp (-(3/4)) < 4723666/10000000 := by
  have habs : |(-(3/4) : ℝ)| ≤ 1 := by
    rw [abs_le]
    constructor <;> norm_num
  have h := @Real.exp_bound (-(3/4)) habs 10 (by norm_num)
  have hsum : (∑ m ∈ Finset.range 10, (-(3/4) : ℝ) ^ m / m.factorial) =
      554749681/1174405120 := by
    simp only [Finset.sum_range_succ, Finset.sum_range_zero, Nat.factorial]
    norm_num
  rw [hsum] at h
  have habs2 : |(-(3/4) : ℝ)| = 3/4 := by
    rw [abs_neg]
    exact abs_of_nonneg (by norm_num)
  have h5 : |Real.exp (-(3/4 : ℝ)) - 554749681/1174405120| ≤ 8019/469762048000 := by
    refine h.trans ?_
    rw [habs2]
    norm_num [Nat.factorial]
  have h2 := abs_le.mp h5
  constructor <;> linarith [h2.1, h2.2]

lemma calculateAsymptoticScore_at_half : calculateAsymptoticScore (1/2) = 5013/100 := by
  have hb := exp_neg34_bounds
  have harg : -((1.5 : ℝ) * (1/2)) = -(3/4) := by norm_num
  unfold calculateAsymptoticScore round2r
  rw [harg]
  rw [round_eq_ofRange 5013 _ (by linarith [hb.2]) (by linarith [hb.1])]
  norm_num

lemma exp_neg32_bounds :
    (22313011/100000000 : ℝ) < Real.exp (-(3/2)) ∧
      Real.exp (-(3/2)) < 22313021/100000000 := by
  have hb := exp_neg34_bounds
  have hpos := Real.exp_pos (-(3/4 : ℝ))
  have hsq : Real.exp (-(3/2 : ℝ)) = Real.exp (-(3/4)) * Real.exp (-(3/4)) := by
    rw [← Real.exp_add]
    norm_num
  rw [hsq]
  constructor <;> nlinarith [hb.1, hb.2, hpos]

lemma calculateAsymptoticScore_at_one : calculateAsymptoticScore 1 = 7380/100 := by
  have hb := exp_neg32_bounds
  have harg : -((1.5 : ℝ) * 1) = -(3/2) := by norm_num
  unfold calculateAsymptoticScore round2r
  rw [harg]
  rw [round_eq_ofRange 7380 _ (by nlinarith [hb.2]) (by nlinarith [hb.1])]
  norm_num

lemma calculateAsymptoticScore_at_zero : calculateAsymptoticScore 0 = 0 := by
  unfold calculateAsymptoticScore
  norm_num [Real.exp_zero, round2r_zero]

lemma exp_fifteen_gt : (19000 : ℝ) < Real.exp 15 := by
  have h1 : (2.7182818283 : ℝ) < Real.exp 1 := Real.exp_one_gt_d9
  have h2 : Real.exp (15 : ℝ) = Real.exp 1 ^ 15 := by
    rw [show (15 : ℝ) = ((15 : ℕ) : ℝ) * 1 by norm_num, Real.exp_nat_mul]
  rw [h2]
  calc (19000 : ℝ) < 2.7182818283 ^ 15 := by norm_num
    _ < Real.exp 1 ^ 15 := by gcongr

lemma exp_neg_small {y : ℝ} (hy : 15 ≤ y) : Real.exp (-y) * 19000 < 1 := by
  have h1 : Real.exp (-y) ≤ Real.exp (-15) := Real.exp_le_exp.mpr (by linarith)
  have h2 : Real.exp (-15) * Real.exp 15 = 1 := by
    rw [← Real.exp_add]
    norm_num [Real.exp_zero]
  have h3 := Real.exp_pos (-15 : ℝ)
  have h4 := Real.exp_pos (-y)
  nlinarith [exp_fifteen_gt]

lemma calculateAsymptoticScore_sat {w : ℝ} (hw : 10 ≤ w) :
    calculateAsymptoticScore w = 95 := by
  have h1 : (15 : ℝ) ≤ 1.5 * w := by linarith
  have h2 := exp_neg_small h1
  have h3 := Real.exp_pos (-(1.5 * w))
  unfold calculateAsymptoticScore round2r
  rw [round_eq_ofRange 9500 _ (by nlinarith) (by nlinarith)]
  norm_num

lemma round2r_mono : Monotone round2r := by
  intro a b hab
  unfold round2r
  have h1 : round (100 * a) ≤ round (100 * b) := by
    rw [round_eq, round_eq]
    exact Int.floor_mono (by linarith)
  have h2 : ((round (100 * a) : ℤ) : ℝ) ≤ ((round (100 * b) : ℤ) : ℝ) := by
    exact_mod_cast h1
  linarith

lemma calculateAsymptoticScore_mono : Monotone calculateAsymptoticScore := by
  intro a b hab
  apply round2r_mono
  have := Real.exp_le_exp.mpr (show -(1.5 * b) ≤ -(1.5 * a) by linarith)
  linarith

lemma rawScore_strictMono :
    StrictMono (fun w : ℝ => 95 * (1 - Real.exp (-(1.5 * w)))) := by
  intro a b hab
  have := Real.exp_lt_exp.mpr (show -(1.5 * b) < -(1.5 * a) by linarith)
  simp only
  linarith

lemma calculateAsymptoticScore_bounds {w : ℝ} (hw : 0 ≤ w) :
    0 ≤ calculateAsymptoticScore w ∧ calculateAsymptoticScore w ≤ 95 := by
  have he1 : Real.exp (-(1.5 * w)) ≤ 1 := Real.exp_le_one_iff.mpr (by linarith)
  have he0 := Real.exp_pos (-(1.5 * w))
  unfold calculateAsymptoticScore round2r
  constructor
  · have h1 : (0 : ℤ) ≤ round (100 * (95 * (1 - Real.exp (-(1.5 * w))))) := by
      rw [round_eq]
      exact Int.le_floor.mpr (by push_cast; linarith)
    have h2 : ((0 : ℤ) : ℝ) ≤ _ := Int.cast_le.mpr h1
    simpa using by linarith [h2]
  · have h1 : round (100 * (95 * (1 - Real.exp (-(1.5 * w))))) ≤ 9500 := by
      rw [round_eq]
      exact Int.floor_le_iff.mpr (by push_cast; linarith)
    have h2 : ((round (100 * (95 * (1 - Real.exp (-(1.5 * w))))) : ℤ) : ℝ) ≤ 9500 := by
      exact_mod_cast h1
    linarith

lemma round2r_div100 (n : ℤ) : round2r ((n : ℝ) / 100) = (n : ℝ) / 100 := by
  unfold round2r
  rw [show (100 : ℝ) * ((n : ℝ) / 100) = (n : ℝ) by ring, round_intCast]

lemma finalScoreOfWeight_zero : finalScoreOfWeight 0 = 0 := by
  unfold finalScoreOfWeight
  rw [calculateAsymptoticScore_at_zero]
  norm_num [round2r_zero]

/-- C1: for every `totalWeight` the score function computes
`MAX_SCORE × (1 − e^(−K × totalWeight))` with `MAX_SCORE = 95`, `K = 1.5`,
rounded to two decimals, and the final score snaps to 0 below
`MIN_SCORE = 8`; `totalWeight = 0` gives 0.00, `totalWeight = 0.50` gives
final score 50.13, and `totalWeight = 1` gives 73.80, which is within 0.05
of the claimed "approximately 73.82". -/
theorem C1_score_formula :
    (∀ w : ℝ, calculateAsymptoticScore w =
      round2r (95 * (1 - Real.exp (-(1.5 * w))))) ∧
    (∀ w : ℝ, finalScoreOfWeight w =
      round2r (if calculateAsymptoticScore w < 8 then 0
               else calculateAsymptoticScore w)) ∧
    calculateAsymptoticScore 0 = 0 ∧ finalScoreOfWeight 0 = 0 ∧
    calculateAsymptoticScore (1/2) = 5013/100 ∧
    finalScoreOfWeight (1/2) = 5013/100 ∧
    |calculateAsymptoticScore 1 - 7382/100| ≤ 5/100 := by
  refine ⟨fun w => rfl, fun w => rfl, calculateAsymptoticScore_at_zero,
    finalScoreOfWeight_zero, calculateAsymptoticScore_at_half, ?_, ?_⟩
  · unfold finalScoreOfWeight
    rw [calculateAsymptoticScore_at_half, if_neg (by norm_num)]
    have h := round2r_div100 5013
    norm_num at h ⊢
    exact h
  · rw [calculateAsymptoticScore_at_one, abs_le]
    constructor <;> norm_num

/-- C3 counterexample: the rounded score is *not* strictly increasing:
weights 10 and 11 both score exactly 95.00. -/
theorem C3_counterexample :
    calculateAsymptoticScore 10 = 95 ∧ calculateAsymptoticScore 11 = 95 ∧
    ¬ StrictMonoOn calculateAsymptoticScore (Set.Ici (0 : ℝ)) := by
  have h10 := calculateAsymptoticScore_sat (le_refl (10 : ℝ))
  have h11 := calculateAsymptoticScore_sat (show (10 : ℝ) ≤ 11 by norm_num)
  refine ⟨h10, h11, fun hmono => ?_⟩
  have h := hmono (Set.mem_Ici.mpr (by norm_num)) (Set.mem_Ici.mpr (by norm_num))
    (show (10 : ℝ) < 11 by norm_num)
  rw [h10, h11] at h
  exact lt_irrefl _ h

/-- C3 (amended): for `totalWeight ≥ 0` the score lies in `[0, 95]` and the
score function is monotone (nondecreasing); the pre-rounding value
`95(1 − e^(−1.5w))` is strictly increasing, but the two-decimal rounding
destroys strictness (see the counterexample at weights 10 and 11). -/
theorem C3_amended :
    (∀ w : ℝ, 0 ≤ w →
      0 ≤ calculateAsymptoticScore w ∧ calculateAsymptoticScore w ≤ 95) ∧
    Monotone calculateAsymptoticScore ∧
    StrictMono (fun w : ℝ => 95 * (1 - Real.exp (-(1.5 * w)))) :=
  ⟨fun _ hw => calculateAsymptoticScore_bounds hw, calculateAsymptoticScore_mono,
    rawScore_strictMono⟩

theorem C3_amended_witness :
    0 ≤ (3 : ℝ) ∧ 0 ≤ calculateAsymptoticScore 3 ∧ calculateAsymptoticScore 3 ≤ 95 :=
  ⟨by norm_num, (C3_amended.1 3 (by norm_num)).1, (C3_amended.1 3 (by norm_num)).2⟩

/-- C4 (code-bug evidence): `URLDFA.scan` is *not* write-free. Scanning
the text `"a.co"` stores the running character buffer inside automaton
nodes (`currentState.buffer = buffer`, src/classes/URLDFA.ts:135): after
the scan the `q_domain` node's buffer holds `"a.co"` although every node
buffer starts out empty. -/
theorem C4_node_buffer_written :
    (urlScanFull (strCodes ("a.co"))).2 UState.qDomain = strCodes ("a.co") ∧
    (urlScanFull (strCodes ("a.co"))).2 UState.qDomainBuilding = strCodes ("a.") ∧
    ¬ (urlScanFull (strCodes ("a.co"))).2 UState.qDomain = [] := by
  refine ⟨by with_unfolding_all decide, by with_unfolding_all decide,
    by with_unfolding_all decide⟩

/-!
## C6: the URL recognizer's deduplication

`specSortedDedup` below renders the *claim's* description — sort by the
key `(start, −(end−start))`, then greedily keep non-overlapping spans —
for comparison with `deduplicateMatches` as implemented. -/

/-- The claim's comparator: ascending `start`, longer span first on ties. -/
def specKeyLE (a b : Match) : Bool :=
  a.start < b.start ∨ (a.start = b.start ∧ b.stop - b.start ≤ a.stop - a.start)

/-- Stable insertion for the claim's comparator. -/
def specInsByKey (m : Match) : List Match → List Match
  | [] => [m]
  | x :: xs => if specKeyLE m x then m :: x :: xs else x :: specInsByKey m xs

/-- Spans `[start, stop)` intersect. -/
def specOverlaps (a b : Match) : Bool := a.start < b.stop ∧ b.start < a.stop

/-- The claim's greedy keep loop. -/
def specGreedy : List Match → List Match → List Match
  | [], res => res
  | m :: rest, res =>
    if res.any (fun e => specOverlaps m e) then specGreedy rest res
    else specGreedy rest (res ++ [m])

/-- The deduplication the claim describes: sort by `(start, −(end−start))`
and keep greedily. -/
def specSortedDedup (ms : List Match) : List Match :=
  specGreedy (ms.foldr specInsByKey []) []

/-- Two same-start URL candidates used to separate the two algorithms. -/
def shortCand : Match := ⟨strCodes ("aa"), 1/2, .URL, 0, 2⟩

def longCand : Match := ⟨strCodes ("aaaaa"), 1/2, .URL, 0, 5⟩

/-- C6 counterexample: on two overlapping candidates with the same start,
the implementation keeps the *first-listed, shorter* one — the sort
comparator is `a.start - b.start` alone, with no length tie-break — while
the claimed `(start, −(end−start))` key would keep the longer one. -/
theorem C6_counterexample :
    deduplicateMatches [shortCand, longCand] = [shortCand] ∧
    specSortedDedup [shortCand, longCand] = [longCand] ∧
    shortCand ≠ longCand := by
  refine ⟨by with_unfolding_all decide, by with_unfolding_all decide,
    by with_unfolding_all decide⟩

lemma mem_insByStart {m x : Match} {l : List Match} :
    m ∈ insByStart x l ↔ m = x ∨ m ∈ l := by
  induction l with
  | nil => simp [insByStart]
  | cons y ys ih =>
    unfold insByStart
    by_cases h : x.start ≤ y.start
    · simp [h]
    · simp only [if_neg h, List.mem_cons, ih]
      tauto

lemma mem_sortByStart {m : Match} {l : List Match} :
    m ∈ sortByStart l ↔ m ∈ l := by
  induction l with
  | nil => simp [sortByStart]
  | cons x xs ih =>
    show m ∈ insByStart x (sortByStart xs) ↔ _
    rw [mem_insByStart, ih]
    simp

lemma dedupGo_mem :
    ∀ (l res : List Match) (keys : List (Nat × Nat)) (m : Match),
      m ∈ dedupGo l res keys → m ∈ res ∨ m ∈ l := by
  intro l
  induction l with
  | nil =>
    intro res keys m h
    exact Or.inl h
  | cons x xs ih =>
    intro res keys m h
    simp only [dedupGo] at h
    split at h
    · rcases ih _ _ _ h with h1 | h1
      · exact Or.inl h1
      · exact Or.inr (List.mem_cons_of_mem _ h1)
    · split at h
      · rcases ih _ _ _ h with h1 | h1
        · exact Or.inl h1
        · exact Or.inr (List.mem_cons_of_mem _ h1)
      · rcases ih _ _ _ h with h1 | h1
        · rcases List.mem_append.mp h1 with h2 | h2
          · exact Or.inl h2
          · simp at h2
            exact Or.inr (by simp [h2])
        · exact Or.inr (List.mem_cons_of_mem _ h1)

lemma dedupGo_pairwise :
    ∀ (l res : List Match) (keys : List (Nat × Nat)),
      List.Pairwise (fun a b => overlapsPair b a = false) res →
      List.Pairwise (fun a b => overlapsPair b a = false) (dedupGo l res keys) := by
  intro l
  induction l with
  | nil =>
    intro res keys hp
    exact hp
  | cons x xs ih =>
    intro res keys hp
    simp only [dedupGo]
    split
    · exact ih _ _ hp
    · split
      · exact ih _ _ hp
      · next h2 =>
        apply ih
        rw [List.pairwise_append]
        refine ⟨hp, List.pairwise_singleton _ _, ?_⟩
        intro a ha b hb
        simp only [List.mem_singleton] at hb
        subst hb
        simp only [List.any_eq_true, not_exists, not_and] at h2
        have h3 := h2 a ha
        simpa using h3

/-- C6 (amended): `deduplicateMatches` sorts the candidates by `start`
alone (stably — the comparator is `a.start - b.start`, with no length
tie-break) and then greedily keeps a match only if its span overlaps no
already-kept match; every kept match comes from the input, kept matches
are pairwise non-overlapping, and among same-start overlapping candidates
the first listed (here the shorter) one is kept, not the longer. -/
theorem C6_dedup_amended :
    (∀ ms : List Match,
      List.Pairwise (fun a b => overlapsPair b a = false) (deduplicateMatches ms)) ∧
    (∀ (ms : List Match) (m : Match), m ∈ deduplicateMatches ms → m ∈ ms) ∧
    deduplicateMatches [shortCand, longCand] = [shortCand] := by
  refine ⟨fun ms => dedupGo_pairwise _ _ _ List.Pairwise.nil, fun ms m h => ?_,
    by with_unfolding_all decide⟩
  rcases dedupGo_mem _ _ _ _ h with h1 | h1
  · exact absurd h1 (List.not_mem_nil m)
  · exact mem_sortByStart.mp h1

theorem C6_dedup_amended_witness :
    shortCand ∈ deduplicateMatches [shortCand, longCand] ∧
    shortCand ∈ [shortCand, longCand] :=
  ⟨by with_unfolding_all decide,
    C6_dedup_amended.2.1 [shortCand, longCand] shortCand
      (by with_unfolding_all decide)⟩

/-!
## C7: URL match weights
-/

lemma calculateWeight_foldl (st : UState) (cs : List UrlCharacteristic) :
    calculateWeight st cs =
      cs.foldl (fun w c => max w (charWeightOf c)) ((baseWeightU st).getD (1/2)) := by
  have hf : (fun (w : ℚ) c => if charWeightOf c ≠ 0 then max w (charWeightOf c) else w) =
      fun (w : ℚ) c => max w (charWeightOf c) := by
    funext w c
    cases c <;> norm_num [charWeightOf]
  unfold calculateWeight
  rw [hf]
  congr 1
  cases st <;> norm_num [baseWeightU]

lemma foldl_max_char_ge (cs : List UrlCharacteristic) :
    ∀ w0 : ℚ, w0 ≤ cs.foldl (fun w c => max w (charWeightOf c)) w0 := by
  induction cs with
  | nil => intro w0; exact le_refl w0
  | cons c cs ih =>
    intro w0
    exact le_trans (le_max_left w0 (charWeightOf c)) (ih _)

lemma half_le_calculateWeight (st : UState) (cs : List UrlCharacteristic) :
    1/2 ≤ calculateWeight st cs := by
  rw [calculateWeight_foldl]
  refine le_trans ?_ (foldl_max_char_ge cs _)
  cases st <;> norm_num [baseWeightU]

lemma urlOuter_emit_prop (text : List Nat) (P : Match → Prop)
    (hemit : ∀ (st : UState) (buffer : List Nat) (i endPos : Nat),
      P ⟨buffer.take 50 ++ (if 50 < buffer.length then strCodes ("...") else []),
         calculateWeight st (analyzeCharacteristics buffer), .URL, i, endPos⟩) :
    ∀ (fuel i : Nat) (bufs : UState → List Nat) (acc : List Match),
      (∀ m ∈ acc, P m) →
      ∀ m ∈ (urlOuter text fuel i bufs acc).1, P m := by
  intro fuel
  induction fuel with
  | zero =>
    intro i bufs acc hacc m hm
    exact hacc m hm
  | succ fuel ih =>
    intro i bufs acc hacc m hm
    simp only [urlOuter] at hm
    split at hm
    · rcases hu : urlInner text (text.length - i + 1) i .q0 [] none bufs with
        ⟨la, buffer, bufs2⟩
      rw [hu] at hm
      rcases la with _ | ⟨st, endPos⟩
      · exact ih _ _ _ hacc m hm
      · dsimp only at hm
        by_cases hb : 0 < buffer.length
        · rw [if_pos hb] at hm
          refine ih _ _ _ ?_ m hm
          intro a ha
          rcases List.mem_append.mp ha with h1 | h1
          · exact hacc a h1
          · simp only [List.mem_singleton] at h1
            subst h1
            exact hemit st buffer i endPos
        · rw [if_neg hb] at hm
          exact ih _ _ _ hacc m hm
    · exact hacc m hm

lemma urlScan_emit_prop (text : List Nat) (P : Match → Prop)
    (hemit : ∀ (st : UState) (buffer : List Nat) (i endPos : Nat),
      P ⟨buffer.take 50 ++ (if 50 < buffer.length then strCodes ("...") else []),
         calculateWeight st (analyzeCharacteristics buffer), .URL, i, endPos⟩)
    (m : Match) (hm : m ∈ urlScan text) : P m := by
  unfold urlScan urlScanFull at hm
  rcases hu : urlOuter text (text.length + 1) 0 (fun _ => []) [] with ⟨ms, bufs⟩
  rw [hu] at hm
  simp only at hm
  rcases dedupGo_mem _ _ _ _ hm with h1 | h1
  · exact absurd h1 (List.not_mem_nil m)
  · have h2 := mem_sortByStart.mp h1
    have h3 := urlOuter_emit_prop text P hemit (text.length + 1) 0 (fun _ => []) []
      (by intro a ha; exact absurd ha (List.not_mem_nil a)) m
    rw [hu] at h3
    exact h3 h2

lemma urlScan_weight_ge (text : List Nat) (m : Match) (hm : m ∈ urlScan text) :
    1/2 ≤ m.weight :=
  urlScan_emit_prop text (fun m => 1/2 ≤ m.weight)
    (fun st buffer _ _ => half_le_calculateWeight st (analyzeCharacteristics buffer))
    m hm

lemma urlScan_category (text : List Nat) (m : Match) (hm : m ∈ urlScan text) :
    m.category = .URL :=
  urlScan_emit_prop text (fun m => m.category = .URL)
    (fun _ _ _ _ => rfl) m hm

/-- C7 counterexample: a plain `http://` URL is *not* emitted with weight
at least 0.60: the protocol branch of `delta` dies on its second character
(`continueProtocol` tests `bufferLower + char` against `^https?://`), so
`"http://a.com"` is matched only from its domain part `"a.com"`, as a
plain domain of weight 0.50 < 0.60. -/
theorem C7_counterexample :
    urlScan (strCodes ("http://a.com")) =
      [⟨strCodes ("a.com"), 1/2, .URL, 7, 12⟩] ∧
    ¬ ((3/5 : ℚ) ≤ 1/2) :=
  ⟨by with_unfolding_all decide, by norm_num⟩

/-- C7 (amended): every emitted URL match has weight equal to the maximum
of the emitting accepting state's base weight (0.50 when unset) and the
fixed weights of its matched characteristics, hence always ≥ 0.50; a plain
`http://` URL is recognized only through its domain part (the protocol
branch never completes) and is emitted with weight 0.50, not ≥ 0.60. -/
theorem C7_url_weight_amended :
    (∀ (st : UState) (cs : List UrlCharacteristic),
      calculateWeight st cs =
        cs.foldl (fun w c => max w (charWeightOf c)) ((baseWeightU st).getD (1/2))) ∧
    (∀ (text : List Nat) (m : Match), m ∈ urlScan text → 1/2 ≤ m.weight) ∧
    urlScan (strCodes ("http://a.com")) =
      [⟨strCodes ("a.com"), 1/2, .URL, 7, 12⟩] :=
  ⟨calculateWeight_foldl, urlScan_weight_ge, by with_unfolding_all decide⟩

theorem C7_url_weight_amended_witness :
    (⟨strCodes ("a.co"), 1/2, .URL, 0, 4⟩ : Match) ∈ urlScan (strCodes ("a.co")) ∧
    (1/2 : ℚ) ≤ (⟨strCodes ("a.co"), 1/2, .URL, 0, 4⟩ : Match).weight :=
  ⟨by with_unfolding_all decide,
    C7_url_weight_amended.2.1 (strCodes ("a.co"))
      ⟨strCodes ("a.co"), 1/2, .URL, 0, 4⟩ (by with_unfolding_all decide)⟩

/-!
## C5: context validation drops a match exactly on short span or missing
word boundary
-/

lemma isBoundaryCode_toLower (c : Nat) :
    isBoundaryCode (toLowerCode c) = isBoundaryCode c := by
  unfold toLowerCode
  by_cases h : 65 ≤ c ∧ c ≤ 90
  · rw [if_pos h]
    have h1 : isBoundaryCode (c + 32) = false := by
      simp only [isBoundaryCode, isSpaceCode, Bool.or_eq_false_iff,
        decide_eq_false_iff_not]
      omega
    have h2 : isBoundaryCode c = false := by
      simp only [isBoundaryCode, isSpaceCode, Bool.or_eq_false_iff,
        decide_eq_false_iff_not]
      omega
    rw [h1, h2]
  · rw [if_neg h]

/-- The drop condition exactly as the claim words it: the trimmed matched
span is shorter than 3 characters, or the character immediately before or
after the span is not in the word-boundary set (text start and end count
as boundaries). Stated over the original (un-lowered) text. -/
def specDropCondition (m : Match) (text : List Nat) : Prop :=
  (trimList (substringJS text m.start m.stop)).length < 3 ∨
  ¬ ((m.start = 0 ∨ ∃ c, text.get? (m.start - 1) = some c ∧ isBoundaryCode c = true) ∧
     (text.length ≤ m.stop ∨ ∃ c, text.get? m.stop = some c ∧ isBoundaryCode c = true))

lemma validateWordBoundary_iff (m : Match) (text : List Nat) :
    validateWordBoundary m text = true ↔
      ((m.start = 0 ∨ ∃ c, text.get? (m.start - 1) = some c ∧ isBoundaryCode c = true) ∧
       (text.length ≤ m.stop ∨ ∃ c, text.get? m.stop = some c ∧ isBoundaryCode c = true)) := by
  unfold validateWordBoundary
  rw [Bool.and_eq_true]
  have hbefore : (if 0 < m.start then
      match (toLowerList text).get? (m.start - 1) with
      | some c => isBoundaryCode c
      | none => false
    else true) = true ↔
      (m.start = 0 ∨ ∃ c, text.get? (m.start - 1) = some c ∧ isBoundaryCode c = true) := by
    by_cases hs : 0 < m.start
    · rw [if_pos hs]
      rcases hg : text.get? (m.start - 1) with _ | c
      · rw [show (toLowerList text).get? (m.start - 1) = none by
          rw [toLowerList, List.get?_map, hg]; rfl]
        simp [hg]
        omega
      · rw [show (toLowerList text).get? (m.start - 1) = some (toLowerCode c) by
          rw [toLowerList, List.get?_map, hg]; rfl]
        simp only [isBoundaryCode_toLower]
        constructor
        · intro hc
          exact Or.inr ⟨c, rfl, hc⟩
        · intro hc
          rcases hc with hc | ⟨c2, hc2, hb2⟩
          · omega
          · cases hc2
            exact hb2
    · rw [if_neg hs]
      simp
      omega
  have hafter : (if m.stop < (toLowerList text).length then
      match (toLowerList text).get? m.stop with
      | some c => isBoundaryCode c
      | none => false
    else true) = true ↔
      (text.length ≤ m.stop ∨ ∃ c, text.get? m.stop = some c ∧ isBoundaryCode c = true) := by
    have hlen : (toLowerList text).length = text.length := by
      rw [toLowerList, List.length_map]
    by_cases hs : m.stop < text.length
    · rw [if_pos (by rw [hlen]; exact hs)]
      rcases hg : text.get? m.stop with _ | c
      · rw [List.get?_eq_none] at hg
        omega
      · rw [show (toLowerList text).get? m.stop = some (toLowerCode c) by
          rw [toLowerList, List.get?_map, hg]; rfl]
        simp only [isBoundaryCode_toLower]
        constructor
        · intro hc
          exact Or.inr ⟨c, rfl, hc⟩
        · intro hc
          rcases hc with hc | ⟨c2, hc2, hb2⟩
          · omega
          · cases hc2
            exact hb2
    · rw [if_neg (by rw [hlen]; omega)]
      simp
      omega
  rw [hbefore, hafter]

lemma validMatch_empty_text (m : Match) : validMatch m [] = false := by
  unfold validMatch validatePatternLength substringJS
  simp [trimList]

/-- C5: `applyContextBoost` drops a raw match exactly when the trimmed
matched span is shorter than 3 characters or a word boundary is missing on
either side (text start/end counting as boundaries); consequently nothing
matched on the span of `"act"` inside `"transaction"` (positions 5-8) ever
survives validation. -/
theorem C5_validation :
    (∀ (m : Match) (text : List Nat),
      validMatch m text = false ↔ specDropCondition m text) ∧
    (∀ (ms : List Match) (m : Match),
      m ∈ (applyContextBoost ms (strCodes ("transaction"))).1 →
      ¬ (m.start = 5 ∧ m.stop = 8)) := by
  constructor
  · intro m text
    unfold validMatch specDropCondition
    by_cases hlen : 3 ≤ (trimList (substringJS text m.start m.stop)).length
    · rw [validatePatternLength, decide_eq_true hlen]
      by_cases hempty : text = []
      · subst hempty
        have := validMatch_empty_text m
        unfold validMatch validatePatternLength at this
        rw [decide_eq_true hlen] at this
        simp at this
      · have hne : text.isEmpty = false := by
          cases text
          · exact absurd rfl hempty
          · rfl
        rw [hne]
        simp only [Bool.true_and, Bool.false_or]
        constructor
        · intro hb
          refine Or.inr fun hc => ?_
          rw [← validateWordBoundary_iff] at hc
          rw [hc] at hb
          cases hb
        · intro hb
          rcases hb with hb | hb
          · omega
          · rw [← validateWordBoundary_iff] at hb
            cases hW : validateWordBoundary m text
            · rfl
            · exact absurd hW hb
    · refine ⟨fun _ => Or.inl (by omega), fun _ => ?_⟩
      rw [validatePatternLength, decide_eq_false hlen]
      rfl
  · intro ms m hm
    rintro ⟨h5, h8⟩
    unfold applyContextBoost at hm
    simp only [List.mem_map] at hm
    rcases hm with ⟨m0, hm0, hmEq⟩
    have hstart : m0.start = 5 := by rw [← h5, ← hmEq]
    have hstop : m0.stop = 8 := by rw [← h8, ← hmEq]
    have hv := List.of_mem_filter hm0
    have hfalse : validMatch m0 (strCodes ("transaction")) = false := by
      unfold validMatch validatePatternLength validateWordBoundary
      rw [hstart, hstop]
      with_unfolding_all decide
    rw [hfalse] at hv
    cases hv

theorem C5_validation_witness :
    ((⟨strCodes ("transaction"), 1/4, Category.FINANCIAL, 0, 11⟩ : Match) ∈
      (applyContextBoost [⟨strCodes ("transaction"), 1/2, .FINANCIAL, 0, 11⟩]
        (strCodes ("transaction"))).1) ∧
    ¬ ((⟨strCodes ("transaction"), 1/4, Category.FINANCIAL, 0, 11⟩ : Match).start = 5 ∧
       (⟨strCodes ("transaction"), 1/4, Category.FINANCIAL, 0, 11⟩ : Match).stop = 8) :=
  ⟨by with_unfolding_all decide,
    C5_validation.2 [⟨strCodes ("transaction"), 1/2, .FINANCIAL, 0, 11⟩]
      ⟨strCodes ("transaction"), 1/4, Category.FINANCIAL, 0, 11⟩
      (by with_unfolding_all decide)⟩

/-!
## C2: scanning is total and yields the empty/zero result on empty or
match-free input
-/

lemma round2q_zero : round2q 0 = 0 := by
  unfold round2q
  norm_num

lemma applyContextBoost_nil (text : List Nat) :
    applyContextBoost [] text = ([], 0) := by
  unfold applyContextBoost
  have hden : calculateMatchDensity 0 text.length = 0 := by
    unfold calculateMatchDensity
    norm_num
  simp only [List.filter_nil, List.map_nil, List.length_nil, hden]
  norm_num [combinationBoost, categoriesOf, hasCriticalCombination,
    criticalCombinations]

lemma scanMessage_of_rawNil (cfg : ScanConfig) (msg : List Nat)
    (h : rawMatchesOf cfg msg = []) : scanMessage cfg msg = ⟨0, []⟩ := by
  have hval : scanValidated cfg msg = ([], 0) := by
    unfold scanValidated
    rw [h, applyContextBoost_nil]
  have hmat : scanMatches cfg msg = [] := by
    unfold scanMatches
    rw [hval]
    rfl
  have htot : scanTotalWeight cfg msg = 0 := by
    unfold scanTotalWeight
    rw [hval, hmat]
    simp [round2q_zero]
  unfold scanMessage
  rw [htot, hmat]
  have : ((0 : ℚ) : ℝ) = 0 := by norm_num
  rw [this, finalScoreOfWeight_zero]

lemma rawMatchesOf_nil_text (cfg : ScanConfig) : rawMatchesOf cfg [] = [] := rfl

/-- C2: scanning is total by construction (every embedded function is a
total Lean function); the empty input yields `matches = []` and
`score = 0.00` for every configuration, and any input producing no raw
matches (e.g. pathological repeated characters matching nothing) yields
the same empty zero-score result. -/
theorem C2_total_scan :
    (∀ cfg : ScanConfig, scanMessage cfg [] = ⟨0, []⟩) ∧
    (∀ (cfg : ScanConfig) (msg : List Nat),
      rawMatchesOf cfg msg = [] → scanMessage cfg msg = ⟨0, []⟩) :=
  ⟨fun cfg => scanMessage_of_rawNil cfg [] (rawMatchesOf_nil_text cfg),
   fun cfg msg h => scanMessage_of_rawNil cfg msg h⟩

theorem C2_total_scan_witness :
    rawMatchesOf ⟨[⟨strCodes ("urgent"), 9/10⟩], [], [], []⟩
      (List.replicate 50 122) = [] ∧
    scanMessage ⟨[⟨strCodes ("urgent"), 9/10⟩], [], [], []⟩
      (List.replicate 50 122) = ⟨0, []⟩ :=
  ⟨by with_unfolding_all decide,
    C2_total_scan.2 ⟨[⟨strCodes ("urgent"), 9/10⟩], [], [], []⟩
      (List.replicate 50 122) (by with_unfolding_all decide)⟩

/-!
## C8: the pipeline's `(category, start, end)` deduplication and the
`totalWeight` computation
-/

lemma mem_upsertMatch {acc : List Match} {m x : Match}
    (h : x ∈ upsertMatch acc m) : x ∈ acc ∨ x = m := by
  induction acc with
  | nil =>
    simp only [upsertMatch, List.mem_singleton] at h
    exact Or.inr h
  | cons a as ih =>
    unfold upsertMatch at h
    by_cases hk : dedupKey a = dedupKey m
    · rw [if_pos hk] at h
      by_cases hw : a.weight < m.weight
      · rw [if_pos hw] at h
        rcases List.mem_cons.mp h with h1 | h1
        · exact Or.inr h1
        · exact Or.inl (List.mem_cons_of_mem _ h1)
      · rw [if_neg hw] at h
        rcases List.mem_cons.mp h with h1 | h1
        · exact Or.inl (by simp [h1])
        · exact Or.inl (List.mem_cons_of_mem _ h1)
    · rw [if_neg hk] at h
      rcases List.mem_cons.mp h with h1 | h1
      · exact Or.inl (by simp [h1])
      · rcases ih h1 with h2 | h2
        · exact Or.inl (List.mem_cons_of_mem _ h2)
        · exact Or.inr h2

lemma upsertMatch_dominates (acc : List Match) (m : Match) :
    (∀ a ∈ acc, ∃ b ∈ upsertMatch acc m,
      dedupKey b = dedupKey a ∧ a.weight ≤ b.weight) ∧
    (∃ b ∈ upsertMatch acc m, dedupKey b = dedupKey m ∧ m.weight ≤ b.weight) := by
  induction acc with
  | nil =>
    refine ⟨fun a ha => absurd ha (List.not_mem_nil a), ?_⟩
    exact ⟨m, List.mem_singleton_self m, rfl, le_refl _⟩
  | cons a as ih =>
    unfold upsertMatch
    by_cases hk : dedupKey a = dedupKey m
    · rw [if_pos hk]
      by_cases hw : a.weight < m.weight
      · rw [if_pos hw]
        constructor
        · intro x hx
          rcases List.mem_cons.mp hx with h1 | h1
          · exact ⟨m, List.mem_cons_self _ _, by rw [← h1] at hk; exact hk.symm,
              by rw [h1]; exact le_of_lt hw⟩
          · exact ⟨x, List.mem_cons_of_mem _ h1, rfl, le_refl _⟩
        · exact ⟨m, List.mem_cons_self _ _, rfl, le_refl _⟩
      · rw [if_neg hw]
        constructor
        · intro x hx
          exact ⟨x, hx, rfl, le_refl _⟩
        · exact ⟨a, List.mem_cons_self _ _, hk, le_of_not_lt hw⟩
    · rw [if_neg hk]
      constructor
      · intro x hx
        rcases List.mem_cons.mp hx with h1 | h1
        · exact ⟨x, by simp [h1], rfl, le_refl _⟩
        · obtain ⟨b, hb, hkb, hlb⟩ := ih.1 x h1
          exact ⟨b, List.mem_cons_of_mem _ hb, hkb, hlb⟩
      · obtain ⟨b, hb, hkb, hlb⟩ := ih.2
        exact ⟨b, List.mem_cons_of_mem _ hb, hkb, hlb⟩

lemma foldl_upsert_dominates_acc :
    ∀ (l acc : List Match), ∀ a ∈ acc,
      ∃ b ∈ List.foldl upsertMatch acc l,
        dedupKey b = dedupKey a ∧ a.weight ≤ b.weight := by
  intro l
  induction l with
  | nil =>
    intro acc a ha
    exact ⟨a, ha, rfl, le_refl _⟩
  | cons m ms ih =>
    intro acc a ha
    obtain ⟨b, hb, hkey, hle⟩ := (upsertMatch_dominates acc m).1 a ha
    obtain ⟨c, hc, hkey2, hle2⟩ := ih (upsertMatch acc m) b hb
    exact ⟨c, hc, by rw [hkey2, hkey], le_trans hle hle2⟩

lemma foldl_upsert_dominates :
    ∀ (l acc : List Match), ∀ m2 ∈ l,
      ∃ b ∈ List.foldl upsertMatch acc l,
        dedupKey b = dedupKey m2 ∧ m2.weight ≤ b.weight := by
  intro l
  induction l with
  | nil =>
    intro acc m2 h
    exact absurd h (List.not_mem_nil m2)
  | cons m ms ih =>
    intro acc m2 h
    rcases List.mem_cons.mp h with h1 | h1
    · subst h1
      obtain ⟨b, hb, hk, hle⟩ := (upsertMatch_dominates acc m2).2
      obtain ⟨c, hc, hk2, hle2⟩ := foldl_upsert_dominates_acc ms (upsertMatch acc m2) b hb
      exact ⟨c, hc, hk2.trans hk, hle.trans hle2⟩
    · exact ih _ m2 h1

lemma foldl_upsert_mem :
    ∀ (l acc : List Match) (x : Match),
      x ∈ List.foldl upsertMatch acc l → x ∈ acc ∨ x ∈ l := by
  intro l
  induction l with
  | nil =>
    intro acc x h
    exact Or.inl h
  | cons m ms ih =>
    intro acc x h
    rcases ih _ x h with h1 | h1
    · rcases mem_upsertMatch h1 with h2 | h2
      · exact Or.inl h2
      · exact Or.inr (by simp [h2])
    · exact Or.inr (List.mem_cons_of_mem _ h1)

lemma upsertMatch_pairwise {acc : List Match} (m : Match)
    (hp : List.Pairwise (fun a b => dedupKey a ≠ dedupKey b) acc) :
    List.Pairwise (fun a b => dedupKey a ≠ dedupKey b) (upsertMatch acc m) := by
  induction acc with
  | nil => exact List.pairwise_singleton _ m
  | cons a as ih =>
    rcases List.pairwise_cons.mp hp with ⟨ha, has⟩
    unfold upsertMatch
    by_cases hk : dedupKey a = dedupKey m
    · rw [if_pos hk]
      by_cases hw : a.weight < m.weight
      · rw [if_pos hw]
        refine List.pairwise_cons.mpr ⟨?_, has⟩
        intro b hb
        rw [← hk]
        exact ha b hb
      · rw [if_neg hw]
        exact hp
    · rw [if_neg hk]
      refine List.pairwise_cons.mpr ⟨?_, ih has⟩
      intro b hb
      rcases mem_upsertMatch hb with h1 | h1
      · exact ha b h1
      · rw [h1]
        exact hk

lemma foldl_upsert_pairwise :
    ∀ (l acc : List Match),
      List.Pairwise (fun a b => dedupKey a ≠ dedupKey b) acc →
      List.Pairwise (fun a b => dedupKey a ≠ dedupKey b)
        (List.foldl upsertMatch acc l) := by
  intro l
  induction l with
  | nil =>
    intro acc hp
    exact hp
  | cons m ms ih =>
    intro acc hp
    exact ih _ (upsertMatch_pairwise m hp)

/-- C8 (amended): the pipeline deduplication keys validated matches by
`(category, start, end)` and keeps, per key, a single match of maximal
weight over the whole validated set; `totalWeight` is the *two-decimal
rounding* of the (trimmed) context boost plus the sum of the deduplicated
adjusted weights — i.e. the claim's sum, rounded to two decimals. -/
theorem C8_dedup_totalWeight :
    (∀ ms : List Match,
      (∀ m ∈ uniqueMatchesOf ms, m ∈ ms) ∧
      (∀ m2 ∈ ms, ∃ m ∈ uniqueMatchesOf ms,
        dedupKey m = dedupKey m2 ∧ m2.weight ≤ m.weight) ∧
      List.Pairwise (fun a b => dedupKey a ≠ dedupKey b) (uniqueMatchesOf ms)) ∧
    (∀ (cfg : ScanConfig) (msg : List Nat),
      scanTotalWeight cfg msg =
        round2q (round2q (scanValidated cfg msg).2 +
          ((uniqueMatchesOf (scanValidated cfg msg).1).map Match.weight).sum)) := by
  refine ⟨fun ms => ⟨?_, ?_, foldl_upsert_pairwise ms [] List.Pairwise.nil⟩,
    fun cfg msg => rfl⟩
  · intro m hm
    rcases foldl_upsert_mem ms [] m hm with h | h
    · exact absurd h (List.not_mem_nil m)
    · exact h
  · intro m2 hm2
    exact foldl_upsert_dominates ms [] m2 hm2

/-- The configuration and witness matches used for the C8 counterexample
and witnesses. -/
def c8cfg : ScanConfig := ⟨[⟨strCodes ("urgent"), 83/100⟩], [], [], []⟩

def c8low : Match := ⟨strCodes ("x"), 1/2, .URGENCY, 0, 1⟩

def c8high : Match := ⟨strCodes ("y"), 3/4, .URGENCY, 0, 1⟩

set_option maxRecDepth 100000 in
/-- C8 counterexample: `totalWeight` is *not* the plain sum
`boost + Σ(adjusted weights)`: the code rounds it to two decimals. With
the single pattern `"urgent"` of weight 0.83 on the message `"urgent"`,
the adjusted weight is 0.83 × 0.5 × 0.4 = 0.166 and the boost is 0, yet
`totalWeight` is 0.17 ≠ 0 + 0.166. -/
theorem C8_counterexample :
    scanTotalWeight c8cfg (strCodes ("urgent")) = 17/100 ∧
    (scanValidated c8cfg (strCodes ("urgent"))).2 = 0 ∧
    ((scanMatches c8cfg (strCodes ("urgent"))).map Match.weight).sum = 83/500 ∧
    (17/100 : ℚ) ≠ 0 + 83/500 := by
  refine ⟨by with_unfolding_all decide, by with_unfolding_all decide,
    by with_unfolding_all decide, by norm_num⟩

theorem C8_dedup_totalWeight_witness :
    (c8low ∈ ([c8low, c8high] : List Match)) ∧
    (∃ m ∈ uniqueMatchesOf [c8low, c8high],
      dedupKey m = dedupKey c8low ∧ c8low.weight ≤ m.weight) :=
  ⟨by with_unfolding_all decide,
    (C8_dedup_totalWeight.1 [c8low, c8high]).2.1 c8low
      (by with_unfolding_all decide)⟩

/-!
## C9: failure-link invariants of the Aho-Corasick automaton
-/

lemma isNode_nil (ps : List Pattern) : isNode ps [] = true := rfl

lemma isNode_tail {ps : List Pattern} {c : Nat} {p : List Nat}
    (h : isNode ps (c :: p) = true) : isNode ps p = true := by
  simp only [isNode, Bool.or_eq_true, List.any_eq_true, decide_eq_true_eq,
    List.isEmpty_iff] at h ⊢
  rcases h with h | ⟨q, hq, hpre⟩
  · cases h
  · refine Or.inr ⟨q, hq, ?_⟩
    have hstep : p.reverse <+: (c :: p).reverse := by
      rw [List.reverse_cons]
      exact ⟨[c], rfl⟩
    exact hstep.trans hpre

lemma chainWalk_spec (ps : List Pattern) (fail : List Nat → List Nat)
    (hfail : ∀ v, isNode ps v = true →
      fail v = [] ∨ (isNode ps (fail v) = true ∧ (fail v).length < v.length)) :
    ∀ (fuel : Nat) (u : List Nat) (c : Nat), isNode ps u = true →
      chainWalk ps fail fuel u c = [] ∨
      ∃ u2, chainWalk ps fail fuel u c = c :: u2 ∧
        isNode ps (c :: u2) = true ∧ u2.length ≤ u.length := by
  intro fuel
  induction fuel with
  | zero =>
    intro u c hu
    exact Or.inl rfl
  | succ fuel ih =>
    intro u c hu
    unfold chainWalk
    split
    · next h1 =>
      rcases hfail u hu with h2 | ⟨h2, h3⟩
      · rw [h2]
        rcases ih [] c (isNode_nil ps) with h4 | ⟨u2, h4, h5, h6⟩
        · exact Or.inl h4
        · exact Or.inr ⟨u2, h4, h5, le_trans h6 (Nat.zero_le _)⟩
      · rcases ih (fail u) c h2 with h4 | ⟨u2, h4, h5, h6⟩
        · exact Or.inl h4
        · exact Or.inr ⟨u2, h4, h5, le_trans h6 (le_of_lt h3)⟩
    · next h1 =>
      split
      · next h2 => exact Or.inr ⟨u, rfl, h2, le_refl _⟩
      · next h2 => exact Or.inl rfl

lemma failAux_spec (ps : List Pattern) :
    ∀ (fuel : Nat) (s : List Nat), isNode ps s = true →
      failAux ps fuel s = [] ∨
      (isNode ps (failAux ps fuel s) = true ∧
        (failAux ps fuel s).length < s.length) := by
  intro fuel
  induction fuel with
  | zero =>
    intro s hs
    exact Or.inl rfl
  | succ fuel ih =>
    intro s hs
    rcases s with _ | ⟨c, p⟩
    · exact Or.inl rfl
    · rcases p with _ | ⟨c2, p2⟩
      · exact Or.inl rfl
      · have hp : isNode ps (c2 :: p2) = true := isNode_tail hs
        have hu0 := ih (c2 :: p2) hp
        have heq : failAux ps (fuel + 1) (c :: c2 :: p2) =
            chainWalk ps (failAux ps fuel) (fuel + 1) (failAux ps fuel (c2 :: p2)) c := rfl
        rw [heq]
        have hnode0 : isNode ps (failAux ps fuel (c2 :: p2)) = true := by
          rcases hu0 with h | ⟨h, _⟩
          · rw [h]
            exact isNode_nil ps
          · exact h
        have hlen0 : (failAux ps fuel (c2 :: p2)).length < (c2 :: p2).length := by
          rcases hu0 with h | ⟨_, h⟩
          · rw [h]
            simp
          · exact h
        rcases chainWalk_spec ps (failAux ps fuel) ih (fuel + 1)
            (failAux ps fuel (c2 :: p2)) c hnode0 with h | ⟨u2, h4, h5, h6⟩
        · exact Or.inl h
        · refine Or.inr ⟨by rw [h4]; exact h5, ?_⟩
          rw [h4]
          simp only [List.length_cons] at hlen0 ⊢
          omega

lemma failLink_spec (ps : List Pattern) (s : List Nat) (h : isNode ps s = true) :
    failLink ps s = [] ∨
    (isNode ps (failLink ps s) = true ∧ (failLink ps s).length < s.length) :=
  failAux_spec ps s.length s h

lemma failLink_iterate_root (ps : List Pattern) :
    ∀ (n : Nat) (s : List Nat), isNode ps s = true → s.length ≤ n →
      (failLink ps)^[n] s = [] := by
  intro n
  induction n with
  | zero =>
    intro s _ hlen
    have hnil : s = [] := List.length_eq_zero.mp (Nat.le_zero.mp hlen)
    rw [Function.iterate_zero_apply, hnil]
  | succ n ih =>
    intro s hs hlen
    rw [Function.iterate_succ_apply]
    rcases failLink_spec ps s hs with h | ⟨h1, h2⟩
    · rw [h]
      exact ih [] (isNode_nil ps) (by simp)
    · exact ih _ h1 (by omega)

/-- C9: in the automaton built from any pattern list, the failure map
sends every non-root state to a single state of the automaton of strictly
smaller depth, and iterating failure links from any state reaches the root
within depth-many steps — hence every failure-chain walk performed by
`scan` terminates. -/
theorem C9_failure_links :
    ∀ (ps : List Pattern) (s : List Nat), isNode ps s = true → s ≠ [] →
      (isNode ps (failLink ps s) = true ∧ (failLink ps s).length < s.length) ∧
      (failLink ps)^[s.length] s = [] := by
  intro ps s hnode hne
  refine ⟨?_, failLink_iterate_root ps s.length s hnode (le_refl _)⟩
  rcases failLink_spec ps s hnode with h | h
  · rw [h]
    exact ⟨isNode_nil ps, by
      simp only [List.length_nil]
      exact List.length_pos.mpr hne⟩
  · exact h

/-- The two-pattern automaton (keywords `"ab"` and `"b"`) used for the C9
witness; the state `[98, 97]` is the reversed path of `"ab"`, whose
failure link is the state `"b"`. -/
def c9ps : List Pattern := [⟨strCodes ("ab"), 1/2⟩, ⟨strCodes ("b"), 3/10⟩]

theorem C9_failure_links_witness :
    isNode c9ps [98, 97] = true ∧ ([98, 97] : List Nat) ≠ [] ∧
    ((isNode c9ps (failLink c9ps [98, 97]) = true ∧
      (failLink c9ps [98, 97]).length < ([98, 97] : List Nat).length) ∧
     (failLink c9ps)^[([98, 97] : List Nat).length] [98, 97] = []) :=
  ⟨by with_unfolding_all decide, by decide,
    C9_failure_links c9ps [98, 97] (by with_unfolding_all decide) (by decide)⟩

/-!
## C10: scan results only carry the five scan categories, never LEGIT
-/

lemma applyContextBoost_category (ms : List Match) (text : List Nat) (m : Match)
    (hm : m ∈ (applyContextBoost ms text).1) :
    ∃ m0 ∈ ms, m.category = m0.category := by
  unfold applyContextBoost at hm
  simp only [List.mem_map] at hm
  rcases hm with ⟨m0, hm0, hmEq⟩
  exact ⟨m0, List.mem_of_mem_filter hm0, by rw [← hmEq]⟩

lemma rawMatchesOf_category (cfg : ScanConfig) (msg : List Nat) (m : Match)
    (hm : m ∈ rawMatchesOf cfg msg) :
    m.category ∈ ([.URGENCY, .FINANCIAL, .PHISHING, .IMPERSONATION, .URL] :
      List Category) := by
  unfold rawMatchesOf at hm
  simp only [List.mem_append, List.mem_map] at hm
  rcases hm with ((((⟨r, _, hr⟩ | ⟨r, _, hr⟩) | ⟨r, _, hr⟩) | ⟨r, _, hr⟩) | ⟨u, hu, hr⟩)
  · rw [← hr]
    simp
  · rw [← hr]
    simp
  · rw [← hr]
    simp
  · rw [← hr]
    simp
  · rw [← hr]
    have := urlScan_category msg u hu
    simp [this]

/-- C10: every match in a `scanMessage` result carries one of the four
configured pattern categories or URL; the `LEGIT` member of the category
type is never produced by a scan. -/
theorem C10_categories :
    ∀ (cfg : ScanConfig) (msg : List Nat) (m : Match),
      m ∈ (scanMessage cfg msg).matchList →
      m.category ∈ ([.URGENCY, .FINANCIAL, .PHISHING, .IMPERSONATION, .URL] :
        List Category) ∧ m.category ≠ .LEGIT := by
  intro cfg msg m hm
  have h1 : m ∈ scanMatches cfg msg := hm
  unfold scanMatches at h1
  rcases foldl_upsert_mem _ _ _ h1 with h2 | h2
  · exact absurd h2 (List.not_mem_nil m)
  · obtain ⟨m0, hm0, hcat⟩ := applyContextBoost_category _ _ _ h2
    have h3 := rawMatchesOf_category cfg msg m0 hm0
    rw [hcat]
    refine ⟨h3, ?_⟩
    intro hL
    rw [hL] at h3
    simp at h3

/-- The configuration used for the C10 witness. -/
def c10cfg : ScanConfig := ⟨[⟨strCodes ("urgent"), 83/100⟩], [], [], []⟩

set_option maxRecDepth 100000 in
theorem C10_categories_witness :
    ((⟨strCodes ("urgent"), 83/500, .URGENCY, 0, 6⟩ : Match) ∈
      (scanMessage c10cfg (strCodes ("urgent"))).matchList) ∧
    ((⟨strCodes ("urgent"), 83/500, .URGENCY, 0, 6⟩ : Match).category ∈
      ([.URGENCY, .FINANCIAL, .PHISHING, .IMPERSONATION, .URL] : List Category) ∧
     (⟨strCodes ("urgent"), 83/500, .URGENCY, 0, 6⟩ : Match).category ≠ .LEGIT) :=
  ⟨by with_unfolding_all decide,
    C10_categories c10cfg (strCodes ("urgent"))
      ⟨strCodes ("urgent"), 83/500, .URGENCY, 0, 6⟩
      (by with_unfolding_all decide)⟩

end ScamSentry
